import Mathlib

/-!
Verification of the Action & Agent Binding Synchronizer
(src/api/server/routes/agents/actions.js).

Strings are modelled as lists of characters. The JavaScript string
operations used by the source are translated directly:
String.prototype.includes becomes a substring test, and
String.prototype.split with the action delimiter becomes a
first-occurrence splitter whose head component models
action.split(actionDelimiter)[0].
-/

namespace ActionsRouter

abbrev Str := List Char

/-- Modelled from the spec: the constant actionDelimiter is imported from
the librechat-data-provider package, which is not part of the source
under verification; it is the reserved separator written between the two
components of an encoded reference. -/
def actionDelimiter : Str := "_action_".toList

/-- JavaScript s.includes(sub): sub occurs contiguously inside s. -/
def includesStr : Str → Str → Bool
  | [], sub => sub.isEmpty
  | s@(_ :: rest), sub => sub.isPrefixOf s || includesStr rest sub

/-- Split a string at the first occurrence of delim, returning the part
before and the part after, or none when delim does not occur. -/
def splitFirstAux (delim : Str) : Str → Option (Str × Str)
  | [] => none
  | c :: rest =>
    if delim.isPrefixOf (c :: rest) then some ([], (c :: rest).drop delim.length)
    else
      match splitFirstAux delim rest with
      | none => none
      | some p => some (c :: p.1, p.2)

/-- JavaScript s.split(delim)[0] for the nonempty action delimiter: the
part of s before the first occurrence of delim, or all of s when delim
does not occur. -/
def splitHead (delim s : Str) : Str :=
  match splitFirstAux delim s with
  | none => s
  | some p => p.1

/-- Error kinds surfaced by the route handlers, per spec section 7. The
internalError kind stands for the catch-all 500 handler that fields any
thrown exception. -/
inductive Err
  | noFunctionsProvided
  | domainNotAllowed
  | noDomainProvided
  | actionNotFound
  | agentNotFound
  | invalidReferenceFormat
  | internalError
deriving DecidableEq

/-- JavaScript values stored in an action metadata object, with their
truthiness. -/
inductive JValue
  | str (s : Str)
  | num (n : Int)
  | bool (b : Bool)
  | null
deriving DecidableEq

/-- JavaScript truthiness of a metadata value. -/
def JValue.truthy : JValue → Bool
  | .str s => !s.isEmpty
  | .num n => n != 0
  | .bool b => b
  | .null => false

/-- A metadata object: association list from field names to values;
lookup takes the first binding. -/
abbrev Metadata := List (Str × JValue)

def metaLookup (k : Str) (m : Metadata) : Option JValue :=
  (m.find? (fun kv => kv.1 == k)).map (fun kv => kv.2)

/-- JavaScript delete metadata[k]: removes every binding of the key. -/
def metaErase (k : Str) (m : Metadata) : Metadata :=
  m.filter (fun kv => kv.1 != k)

def apiKeyField : Str := "api_key".toList
def oauthClientIdField : Str := "oauth_client_id".toList
def oauthClientSecretField : Str := "oauth_client_secret".toList

/-- The sensitiveFields list of the source (lines 74 and 199). -/
def sensitiveFields : List Str :=
  [apiKeyField, oauthClientIdField, oauthClientSecretField]

/-- One iteration of the sanitizing loop of the source: delete the field
only when its current value is truthy. -/
def sanitizeField (m : Metadata) (f : Str) : Metadata :=
  match metaLookup f m with
  | some v => if v.truthy then metaErase f m else m
  | none => m

/-- The sanitizing loop the source runs over updatedAction.metadata
before responding (lines 74 to 79 and 199 to 204). -/
def sanitizeMetadata (m : Metadata) : Metadata :=
  sensitiveFields.foldl sanitizeField m

def domainKey : Str := "domain".toList

/-- Reads metadata.domain as a string; a missing or non-string field is
modelled as the empty string, which the external domain parsing
collaborator receives unchanged. -/
def metaDomain (m : Metadata) : Str :=
  match metaLookup domainKey m with
  | some (JValue.str s) => s
  | _ => []

/-- An agent record: actions is the list of encoded action references
and tools the list of encoded tool references. -/
structure Agent where
  id : Str
  author : Str
  actions : List Str
  tools : List Str
deriving DecidableEq

/-- An action record as persisted by the routes. -/
structure Action where
  action_id : Str
  agent_id : Str
  user : Str
  metadata : Metadata
  functions : List Str
deriving DecidableEq

/-- Encoded action reference, the template literal
domain ++ actionDelimiter ++ action_id of source lines 182 and 249. -/
def encodeActionRef (domain action_id : Str) : Str :=
  domain ++ actionDelimiter ++ action_id

/-- Encoded tool reference, the template literal
functionName ++ actionDelimiter ++ domain of source lines 188 and 256. -/
def encodeToolRef (fnName domain : Str) : Str :=
  fnName ++ actionDelimiter ++ domain

/-- Modelled from the spec: the Reference Codec operation splitActionRef
returning the domain and action id components; it is not a named
function of the source, which only destructures the head component, and
per spec section 4.1 it fails with InvalidReferenceFormat when the
delimiter is absent. -/
def splitActionRef (ref : Str) : Except Err (Str × Str) :=
  match splitFirstAux actionDelimiter ref with
  | none => Except.error Err.invalidReferenceFormat
  | some p => Except.ok p

/-- Domain component of an encoded tool reference: the part after the
first delimiter occurrence. -/
def toolRefDomain (t : Str) : Str :=
  match splitFirstAux actionDelimiter t with
  | none => []
  | some p => p.2

/-- Attach an action to one agent, source lines 245 to 258. Returns the
updated agent together with a flag telling whether updateAgent was
called; when an existing (truthy) actions entry already contains the
action id the handler performs no write at all. -/
def bindAgent (domain action_id : Str) (functions : List Str) (agent : Agent) :
    Agent × Bool :=
  if ((agent.actions.find? (fun a => includesStr a action_id)).getD []).isEmpty then
    ({ agent with
        actions := agent.actions ++ [encodeActionRef domain action_id],
        tools :=
          agent.tools.filter
            (fun tool =>
              tool.isEmpty || !(includesStr tool domain || includesStr tool action_id))
          ++ functions.map (fun f => encodeToolRef f domain) },
      true)
  else (agent, false)

/-- The filtering loop of source lines 289 to 296: remove every actions
entry containing the action id while the closure variable domain ends up
holding the head component of the last removed entry, or the empty
string when no entry matched. -/
def unbindScan (action_id : Str) (actions : List Str) : List Str × Str :=
  (actions.filter (fun a => !(includesStr a action_id)),
   match (actions.filter (fun a => includesStr a action_id)).getLast? with
   | some e => splitHead actionDelimiter e
   | none => [])

/-- Detach an action from one agent, source lines 287 to 306. When the
extracted domain is empty the handler returns the 400 error before any
call to updateAgent, so an error result carries no state change. -/
def unbindAgent (action_id : Str) (agent : Agent) : Except Err Agent :=
  if (unbindScan action_id agent.actions).2.isEmpty then
    Except.error Err.noDomainProvided
  else
    Except.ok
      { agent with
        actions := (unbindScan action_id agent.actions).1,
        tools :=
          agent.tools.filter
            (fun tool =>
              tool.isEmpty || !includesStr tool (unbindScan action_id agent.actions).2) }

/-- Per-agent body of the update cascade, source lines 178 to 196. -/
def updateAgentRefs (oldDomain domain action_id : Str) (fnNames : List Str)
    (agent : Agent) : Agent :=
  { agent with
    actions :=
      agent.actions.filter (fun a => !includesStr a action_id)
        ++ [encodeActionRef domain action_id],
    tools :=
      agent.tools.filter
        (fun tool =>
          tool.isEmpty || !(includesStr tool oldDomain || includesStr tool action_id))
        ++ fnNames.map (fun f => encodeToolRef f domain) }

/-- Per-agent body of the delete cascade, source lines 108 to 115. -/
def deleteAgentRefs (domain action_id : Str) (agent : Agent) : Agent :=
  { agent with
    actions := agent.actions.filter (fun a => !includesStr a action_id),
    tools :=
      agent.tools.filter
        (fun tool =>
          tool.isEmpty || !(includesStr tool action_id || includesStr tool domain)) }

/-- Membership test of the getAgents cascade query (source lines 103 and
172): the agent has some actions entry matching the action id. The
source sends the id as a case-insensitive regular expression; ids are
opaque generated strings, modelled here as literal substring containment. -/
def matchesActionQuery (action_id : Str) (agent : Agent) : Bool :=
  agent.actions.any (fun a => includesStr a action_id)

/-- A role of the acting identity; SystemRoles.ADMIN of the source. -/
inductive Role
  | admin
  | user
deriving DecidableEq

/-- The acting identity, req.user of the source. -/
structure Identity where
  id : Str
  role : Role
deriving DecidableEq

/-- The isAdmin helper of source lines 14 to 16. -/
def isAdmin (u : Identity) : Bool :=
  u.role == Role.admin

/-- A store filter for agent lookups: id always, author only when the
caller is not an admin. -/
structure AgentQuery where
  id : Str
  author : Option Str
deriving DecidableEq

/-- Query construction of source lines 226 and 281: admins may address
any agent, other identities only agents they authored. -/
def mkAgentQuery (u : Identity) (agent_id : Str) : AgentQuery :=
  if isAdmin u then { id := agent_id, author := none }
  else { id := agent_id, author := some u.id }

def matchesAgentQuery (q : AgentQuery) (agent : Agent) : Bool :=
  agent.id == q.id &&
    (match q.author with
     | none => true
     | some auth => agent.author == auth)

/-- The getAgent store lookup: first record matching the filter. -/
def getAgent (q : AgentQuery) (agents : List Agent) : Option Agent :=
  agents.find? (matchesAgentQuery q)

/-- The getAction store lookup by action id. -/
def getAction (action_id : Str) (actions : List Action) : Option Action :=
  actions.find? (fun a => a.action_id == action_id)

/-- The deleteAction store operation (findOneAndDelete): removes the
first record with the given id and returns it beside the remaining
store, or none when absent. -/
def deleteActionStore (action_id : Str) : List Action → Option Action × List Action
  | [] => (none, [])
  | a :: rest =>
    if a.action_id == action_id then (some a, rest)
    else
      let r := deleteActionStore action_id rest
      (r.1, a :: r.2)

/-- The updateAgent store operation: replace the first record matching
the filter. -/
def updateAgentStore (q : AgentQuery) (newAgent : Agent) : List Agent → List Agent
  | [] => []
  | a :: rest =>
    if matchesAgentQuery q a then newAgent :: rest
    else a :: updateAgentStore q newAgent rest

/-- The two persisted collections the synchronizer keeps in sync. -/
structure SysState where
  actions : List Action
  agents : List Agent
deriving DecidableEq

/-- The bind route, POST /:agent_id/:action_id, source lines 220 to 266.
The parameter dp models the external domain parsing collaborator for
this request. An error result means the handler returned before calling
updateAgent, leaving both stores untouched. -/
def bindRoute (dp : Str → Str) (u : Identity) (agent_id action_id : Str)
    (st : SysState) : Except Err SysState :=
  match getAgent (mkAgentQuery u agent_id) st.agents with
  | none => Except.error Err.agentNotFound
  | some agent =>
    match getAction action_id st.actions with
    | none => Except.error Err.actionNotFound
    | some action =>
      if (bindAgent (dp (metaDomain action.metadata)) action_id action.functions agent).2 then
        Except.ok
          { st with
            agents :=
              updateAgentStore (mkAgentQuery u agent_id)
                (bindAgent (dp (metaDomain action.metadata)) action_id action.functions agent).1
                st.agents }
      else Except.ok st

/-- The unbind route, DELETE /:agent_id/:action_id, source lines 275 to
312. An error result means the handler returned before calling
updateAgent, leaving both stores untouched. -/
def unbindRoute (u : Identity) (agent_id action_id : Str) (st : SysState) :
    Except Err SysState :=
  match getAgent (mkAgentQuery u agent_id) st.agents with
  | none => Except.error Err.agentNotFound
  | some agent =>
    match unbindAgent action_id agent with
    | Except.error e => Except.error e
    | Except.ok agent2 =>
      Except.ok
        { st with agents := updateAgentStore (mkAgentQuery u agent_id) agent2 st.agents }

/-- The delete route, DELETE /:action_id, source lines 94 to 124. When
no action record exists, deleteAction yields null and the handler
dereferences null.metadata, so the thrown TypeError reaches the catch
block and the response is the generic 500, modelled as internalError;
in that case neither store is mutated. -/
def deleteActionRoute (dp : Str → Str) (action_id : Str) (st : SysState) :
    Except Err SysState :=
  match (deleteActionStore action_id st.actions).1 with
  | none => Except.error Err.internalError
  | some act =>
    Except.ok
      { actions := (deleteActionStore action_id st.actions).2,
        agents :=
          st.agents.map
            (fun agent =>
              if matchesActionQuery action_id agent then
                deleteAgentRefs (dp (metaDomain act.metadata)) action_id agent
              else agent) }

/-- One synchronizer operation as it acts on a single agent record; the
parameters are the per-request values the source computes before
touching the agent. -/
inductive Op
  | bind (domain action_id : Str) (fns : List Str)
  | unbind (action_id : Str)
  | update (oldDomain domain action_id : Str) (fns : List Str)
  | delete (domain action_id : Str)

/-- Effect of one operation on one agent record. A failing unbind and a
cascade that does not match the agent leave it unchanged, exactly as the
source performs no updateAgent call in those cases. -/
def applyOp (agent : Agent) : Op → Agent
  | Op.bind d a fns => (bindAgent d a fns agent).1
  | Op.unbind a =>
    match unbindAgent a agent with
    | Except.ok agent2 => agent2
    | Except.error _ => agent
  | Op.update od d a fns =>
    if matchesActionQuery a agent then updateAgentRefs od d a fns agent else agent
  | Op.delete d a =>
    if matchesActionQuery a agent then deleteAgentRefs d a agent else agent

def applyOps (agent : Agent) : List Op → Agent
  | [] => agent
  | op :: rest => applyOps (applyOp agent op) rest

/-- Number of actions entries containing the given action id. -/
def countRefs (action_id : Str) (actions : List Str) : Nat :=
  (actions.filter (fun a => includesStr a action_id)).length

/-- Well-formedness of one operation relative to a tracked action id,
formalizing the spec assumption (section 4.1) that ids are delimiter
free and sufficiently unique: the tracked id is nonempty and does not
occur as a substring of a reference encoded for a different action. -/
def opSafe (aid : Str) : Op → Bool
  | Op.bind d a _ =>
    !aid.isEmpty && (a == aid || !includesStr (encodeActionRef d a) aid)
  | Op.update _ d a _ =>
    a == aid || !includesStr (encodeActionRef d a) aid
  | _ => true

theorem isPrefixOf_self_append (l t : Str) : l.isPrefixOf (l ++ t) = true := by
  induction l with
  | nil => simp
  | cons c rest ih => simp [List.isPrefixOf, ih]

theorem includesStr_suffix_self (l sub : Str) : includesStr (l ++ sub) sub = true := by
  induction l with
  | nil =>
    cases sub with
    | nil => rfl
    | cons c rest =>
      have h := isPrefixOf_self_append (c :: rest) ([] : Str)
      rw [List.append_nil] at h
      simp [includesStr, h]
  | cons c rest ih =>
    simp [includesStr, ih]

theorem includesStr_encode_self (d a : Str) : includesStr (encodeActionRef d a) a = true := by
  have h : encodeActionRef d a = (d ++ actionDelimiter) ++ a := by
    simp [encodeActionRef, List.append_assoc]
  rw [h]
  exact includesStr_suffix_self (d ++ actionDelimiter) a

theorem includesStr_nil_iff (sub : Str) : includesStr [] sub = true ↔ sub = [] := by
  cases sub <;> simp [includesStr]

theorem countRefs_append (aid : Str) (l1 l2 : List Str) :
    countRefs aid (l1 ++ l2) = countRefs aid l1 + countRefs aid l2 := by
  simp [countRefs, List.filter_append]

theorem countRefs_filter_le (aid : Str) (p : Str → Bool) (l : List Str) :
    countRefs aid (l.filter p) ≤ countRefs aid l :=
  List.Sublist.length_le (List.Sublist.filter _ (List.filter_sublist l))

theorem countRefs_filter_not_id (aid : Str) (l : List Str) :
    countRefs aid (l.filter (fun x => !includesStr x aid)) = 0 := by
  simp [countRefs, List.filter_filter]

theorem countRefs_singleton (aid e : Str) :
    countRefs aid [e] = if includesStr e aid then 1 else 0 := by
  simp only [countRefs, List.filter_cons, List.filter_nil]
  split <;> rfl


theorem splitFirstAux_boundary (c : Char) (ds d a : Str) (hc : c ∉ d) :
    splitFirstAux (c :: ds) (d ++ ((c :: ds) ++ a)) = some (d, a) := by
  induction d with
  | nil =>
    have h1 : (c :: ds).isPrefixOf (c :: (ds ++ a)) = true := by
      have h := isPrefixOf_self_append (c :: ds) a
      rwa [List.cons_append] at h
    have h2 : (c :: (ds ++ a)).drop (c :: ds).length = a := by
      have h := List.drop_left (c :: ds) a
      rwa [List.cons_append] at h
    simp only [List.nil_append, List.cons_append]
    simp [splitFirstAux, h1, h2]
  | cons x d2 ih =>
    have hcx : c ≠ x := fun hx => hc (hx ▸ List.mem_cons_self x d2)
    have hnp : (c :: ds).isPrefixOf (x :: (d2 ++ ((c :: ds) ++ a))) = false := by
      simp [List.isPrefixOf_cons₂, hcx]
    have ih2 := ih (fun hm => hc (List.mem_cons_of_mem x hm))
    simp only [List.cons_append]
    simp only [List.cons_append] at ih2
    simp [splitFirstAux, ih2, hcx]

theorem splitFirstAux_delim_boundary (d a : Str) (hc : ('_' : Char) ∉ d) :
    splitFirstAux actionDelimiter (d ++ (actionDelimiter ++ a)) = some (d, a) := by
  have hd : actionDelimiter = '_' :: "action_".toList := rfl
  rw [hd]
  exact splitFirstAux_boundary '_' "action_".toList d a hc

theorem encodeActionRef_assoc (d a : Str) :
    encodeActionRef d a = d ++ (actionDelimiter ++ a) := by
  simp [encodeActionRef, List.append_assoc]

/-- C4 counterexample: the domain x_action and the id are both free of
the delimiter, yet decoding the encoded reference does not return them,
because a delimiter occurrence straddles the boundary between the domain
and the appended delimiter. -/
theorem c4_roundtrip_counterexample :
    includesStr "x_action".toList actionDelimiter = false ∧
    includesStr "id".toList actionDelimiter = false ∧
    splitActionRef (encodeActionRef "x_action".toList "id".toList)
      = Except.ok ("x".toList, "action_id".toList) ∧
    ("x".toList, "action_id".toList) ≠ ("x_action".toList, "id".toList) := by
  refine ⟨by decide, by decide, rfl, by decide⟩

/-- C4 (amended): splitActionRef inverts encodeActionRef for every
domain that avoids the first character of the delimiter (so that no
delimiter occurrence can start inside the domain) and every action id;
encoding itself performs no validation and never fails. -/
theorem c4_roundtrip_amended (d a : Str) (h : ('_' : Char) ∉ d) :
    splitActionRef (encodeActionRef d a) = Except.ok (d, a) := by
  unfold splitActionRef
  rw [encodeActionRef_assoc, splitFirstAux_delim_boundary d a h]

theorem c4_roundtrip_amended_witness :
    splitActionRef (encodeActionRef "api.example.com".toList "a1".toList)
      = Except.ok ("api.example.com".toList, "a1".toList) :=
  c4_roundtrip_amended "api.example.com".toList "a1".toList (by decide)

theorem metaLookup_cons_eq (f : Str) (kv : Str × JValue) (m : Metadata)
    (h : kv.1 = f) : metaLookup f (kv :: m) = some kv.2 := by
  simp [metaLookup, List.find?_cons_of_pos, h]

theorem metaLookup_cons_ne (f : Str) (kv : Str × JValue) (m : Metadata)
    (h : kv.1 ≠ f) : metaLookup f (kv :: m) = metaLookup f m := by
  simp [metaLookup, List.find?_cons_of_neg, h]

theorem metaLookup_erase_self (f : Str) (m : Metadata) :
    metaLookup f (metaErase f m) = none := by
  induction m with
  | nil => rfl
  | cons kv rest ih =>
    by_cases h : kv.1 = f
    · have he : metaErase f (kv :: rest) = metaErase f rest := by
        simp [metaErase, List.filter_cons, h]
      rw [he]
      exact ih
    · have he : metaErase f (kv :: rest) = kv :: metaErase f rest := by
        simp [metaErase, List.filter_cons, h]
      rw [he, metaLookup_cons_ne f kv _ h]
      exact ih

theorem metaLookup_erase_ne (f g : Str) (m : Metadata) (h : f ≠ g) :
    metaLookup f (metaErase g m) = metaLookup f m := by
  induction m with
  | nil => rfl
  | cons kv rest ih =>
    by_cases hk : kv.1 = g
    · have he : metaErase g (kv :: rest) = metaErase g rest := by
        simp [metaErase, List.filter_cons, hk]
      rw [he, ih, metaLookup_cons_ne f kv rest (by rw [hk]; exact fun hgf => h hgf.symm)]
    · have he : metaErase g (kv :: rest) = kv :: metaErase g rest := by
        simp [metaErase, List.filter_cons, hk]
      rw [he]
      by_cases hf : kv.1 = f
      · rw [metaLookup_cons_eq f kv _ hf, metaLookup_cons_eq f kv rest hf]
      · rw [metaLookup_cons_ne f kv _ hf, metaLookup_cons_ne f kv rest hf]
        exact ih

theorem metaLookup_sanitizeField_self (f : Str) (m : Metadata) (v : JValue)
    (h : metaLookup f (sanitizeField m f) = some v) : v.truthy = false := by
  unfold sanitizeField at h
  split at h
  next w heq =>
    split at h
    next hw =>
      rw [metaLookup_erase_self] at h
      exact absurd h (by simp)
    next hw =>
      rw [heq] at h
      have hv : w = v := by injection h
      subst hv
      simpa using hw
  next heq =>
    rw [heq] at h
    exact absurd h (by simp)

theorem metaLookup_sanitizeField_ne (f g : Str) (m : Metadata) (h : f ≠ g) :
    metaLookup f (sanitizeField m g) = metaLookup f m := by
  unfold sanitizeField
  split
  next w heq =>
    split
    next hw => exact metaLookup_erase_ne f g m h
    next hw => rfl
  next heq => rfl

/-- C5 counterexample: a metadata object carrying the secret field
api_key with the falsy value 0 passes through the sanitizing loop
untouched, because the loop deletes a sensitive field only when its
value is truthy; the returned metadata still contains the secret field. -/
theorem c5_sanitize_counterexample :
    metaLookup apiKeyField (sanitizeMetadata [(apiKeyField, JValue.num 0)])
      = some (JValue.num 0) := by
  decide

/-- C5 (amended): the sanitized metadata contains no sensitive field
bound to a truthy value; a sensitive field holding a falsy value is
retained verbatim. -/
theorem c5_sanitize_amended (m : Metadata) (f : Str) (v : JValue)
    (hf : f ∈ sensitiveFields) (h : metaLookup f (sanitizeMetadata m) = some v) :
    v.truthy = false := by
  have hm : sanitizeMetadata m
      = sanitizeField (sanitizeField (sanitizeField m apiKeyField) oauthClientIdField)
          oauthClientSecretField := rfl
  rw [hm] at h
  simp only [sensitiveFields, List.mem_cons, List.mem_singleton, List.not_mem_nil,
    or_false] at hf
  rcases hf with hf | hf | hf
  · subst hf
    rw [metaLookup_sanitizeField_ne _ _ _ (by decide),
      metaLookup_sanitizeField_ne _ _ _ (by decide)] at h
    exact metaLookup_sanitizeField_self _ _ _ h
  · subst hf
    rw [metaLookup_sanitizeField_ne _ _ _ (by decide)] at h
    exact metaLookup_sanitizeField_self _ _ _ h
  · subst hf
    exact metaLookup_sanitizeField_self _ _ _ h

theorem c5_sanitize_amended_witness : JValue.truthy (JValue.num 0) = false :=
  c5_sanitize_amended [(apiKeyField, JValue.num 0)] apiKeyField (JValue.num 0)
    (by decide) (by decide)

theorem encodeActionRef_ne_nil (d a : Str) : encodeActionRef d a ≠ [] := by
  rw [encodeActionRef_assoc]
  intro h
  rcases List.append_eq_nil.mp h with ⟨h1, h2⟩
  rcases List.append_eq_nil.mp h2 with ⟨h3, h4⟩
  exact absurd h3 (by decide)

/-- The branch condition of the bind handler, source line 248: the write
happens when no truthy actions entry contains the action id. -/
def bindCond (action_id : Str) (agent : Agent) : Bool :=
  ((agent.actions.find? (fun a => includesStr a action_id)).getD []).isEmpty

theorem bindAgent_eq_write (d aid : Str) (fns : List Str) (agent : Agent)
    (hc : bindCond aid agent = true) :
    bindAgent d aid fns agent =
      ({ agent with
          actions := agent.actions ++ [encodeActionRef d aid],
          tools :=
            agent.tools.filter
              (fun tool =>
                tool.isEmpty || !(includesStr tool d || includesStr tool aid))
            ++ fns.map (fun f => encodeToolRef f d) }, true) := by
  unfold bindAgent
  unfold bindCond at hc
  rw [if_pos hc]

theorem bindAgent_eq_noop (d aid : Str) (fns : List Str) (agent : Agent)
    (hc : bindCond aid agent = false) :
    bindAgent d aid fns agent = (agent, false) := by
  unfold bindAgent
  unfold bindCond at hc
  rw [if_neg (by simp [hc])]

theorem bindCond_of_find_none (aid : Str) (agent : Agent)
    (hf : agent.actions.find? (fun a => includesStr a aid) = none) :
    bindCond aid agent = true := by
  unfold bindCond
  rw [hf]
  rfl

theorem bindCond_of_find_ne_nil (aid : Str) (agent : Agent) (e : Str)
    (hf : agent.actions.find? (fun a => includesStr a aid) = some e) (he : e ≠ []) :
    bindCond aid agent = false := by
  unfold bindCond
  rw [hf]
  simpa [List.isEmpty_iff] using he

theorem bindCond_find_none_of_true (aid : Str) (agent : Agent) (hne : aid ≠ [])
    (hc : bindCond aid agent = true) :
    agent.actions.find? (fun a => includesStr a aid) = none := by
  cases hf : agent.actions.find? (fun a => includesStr a aid) with
  | none => rfl
  | some e =>
    unfold bindCond at hc
    rw [hf] at hc
    have he : e = [] := by simpa [List.isEmpty_iff] using hc
    subst he
    have hinc := List.find?_some hf
    exact absurd ((includesStr_nil_iff aid).mp hinc) hne

/-- C2: binding the same action to the same agent twice is a no-op the
second time; the repeated call returns the once-bound agent unchanged
together with the flag recording that no updateAgent write happened. -/
theorem c2_bind_idempotent (d aid : Str) (fns : List Str) (agent : Agent)
    (hne : aid ≠ []) :
    bindAgent d aid fns (bindAgent d aid fns agent).1
      = ((bindAgent d aid fns agent).1, false) := by
  cases hc : bindCond aid agent with
  | false =>
    rw [bindAgent_eq_noop d aid fns agent hc]
    exact bindAgent_eq_noop d aid fns agent hc
  | true =>
    have hf := bindCond_find_none_of_true aid agent hne hc
    rw [bindAgent_eq_write d aid fns agent hc]
    apply bindAgent_eq_noop
    apply bindCond_of_find_ne_nil aid _ (encodeActionRef d aid)
      ?_ (encodeActionRef_ne_nil d aid)
    show (agent.actions ++ [encodeActionRef d aid]).find?
        (fun a => includesStr a aid) = some (encodeActionRef d aid)
    rw [List.find?_append, hf]
    simp [includesStr_encode_self]

theorem c2_bind_idempotent_witness :
    bindAgent "d1".toList "a1".toList ["f".toList]
        (bindAgent "d1".toList "a1".toList ["f".toList]
          { id := "A".toList, author := "u".toList, actions := [], tools := [] }).1
      = ((bindAgent "d1".toList "a1".toList ["f".toList]
          { id := "A".toList, author := "u".toList, actions := [], tools := [] }).1,
        false) :=
  c2_bind_idempotent "d1".toList "a1".toList ["f".toList]
    { id := "A".toList, author := "u".toList, actions := [], tools := [] }
    (by decide)

theorem unbindAgent_error_of_scan_nil (aid : Str) (agent : Agent)
    (h : (unbindScan aid agent.actions).2 = []) :
    unbindAgent aid agent = Except.error Err.noDomainProvided := by
  unfold unbindAgent
  rw [h]
  rfl

/-- C10: the bind handler performs no emptiness check on the parsed
domain, so a domain resolved to the empty string is still encoded into a
fresh actions entry whose domain component is empty; the subsequent
unbind for that action id finds the entry, extracts the empty domain,
and fails with the no-domain 400 before any write, so the entry is never
removed through unbind. -/
theorem c10_empty_domain_unremovable (aid : Str) (fns : List Str) (agent : Agent)
    (hnone : ∀ e ∈ agent.actions, includesStr e aid = false) :
    (bindAgent [] aid fns agent).1.actions
        = agent.actions ++ [encodeActionRef [] aid] ∧
    unbindAgent aid (bindAgent [] aid fns agent).1
        = Except.error Err.noDomainProvided := by
  have hf : agent.actions.find? (fun a => includesStr a aid) = none :=
    List.find?_eq_none.mpr (fun x hx => by simp [hnone x hx])
  rw [bindAgent_eq_write [] aid fns agent (bindCond_of_find_none aid agent hf)]
  have hfil : (agent.actions ++ [encodeActionRef [] aid]).filter
      (fun a => includesStr a aid) = [encodeActionRef [] aid] := by
    rw [List.filter_append,
      List.filter_eq_nil_iff.mpr (fun x hx => by simp [hnone x hx])]
    simp [List.filter_cons, includesStr_encode_self]
  have hsh : splitHead actionDelimiter (encodeActionRef [] aid) = [] := by
    unfold splitHead
    rw [encodeActionRef_assoc, List.nil_append]
    have hb := splitFirstAux_delim_boundary [] aid (by simp)
    rw [List.nil_append] at hb
    rw [hb]
  have hscan : (unbindScan aid (agent.actions ++ [encodeActionRef [] aid])).2 = [] := by
    simp [unbindScan, hfil, hsh]
  refine ⟨rfl, ?_⟩
  apply unbindAgent_error_of_scan_nil
  exact hscan

theorem c10_empty_domain_unremovable_witness :
    (bindAgent [] "a1".toList ["f".toList]
        { id := "A".toList, author := "u".toList, actions := [], tools := [] }).1.actions
      = [] ++ [encodeActionRef [] "a1".toList] ∧
    unbindAgent "a1".toList
        (bindAgent [] "a1".toList ["f".toList]
          { id := "A".toList, author := "u".toList, actions := [], tools := [] }).1
      = Except.error Err.noDomainProvided :=
  c10_empty_domain_unremovable "a1".toList ["f".toList]
    { id := "A".toList, author := "u".toList, actions := [], tools := [] }
    (by decide)

/-- C6: when no actions entry of the looked-up agent contains the action
id, the unbind route fails with the no-domain 400; the handler returns
before its updateAgent call, so the stores are untouched. -/
theorem c6_unbind_no_match (u : Identity) (agent_id action_id : Str) (st : SysState)
    (agent : Agent)
    (hget : getAgent (mkAgentQuery u agent_id) st.agents = some agent)
    (hnone : ∀ e ∈ agent.actions, includesStr e action_id = false) :
    unbindRoute u agent_id action_id st = Except.error Err.noDomainProvided := by
  have hub : unbindAgent action_id agent = Except.error Err.noDomainProvided := by
    apply unbindAgent_error_of_scan_nil
    unfold unbindScan
    have hfil : agent.actions.filter (fun a => includesStr a action_id) = [] :=
      List.filter_eq_nil_iff.mpr (fun x hx => by simp [hnone x hx])
    rw [hfil]
    rfl
  simp only [unbindRoute, hget, hub]

def c6Agent : Agent :=
  { id := "A".toList, author := "u".toList,
    actions := ["other".toList], tools := ["t".toList] }

def c6State : SysState := { actions := [], agents := [c6Agent] }

theorem c6_unbind_no_match_witness :
    unbindRoute { id := "u".toList, role := Role.user } "A".toList "a1".toList c6State
      = Except.error Err.noDomainProvided :=
  c6_unbind_no_match { id := "u".toList, role := Role.user } "A".toList "a1".toList
    c6State c6Agent (by decide) (by decide)

def c8Agent : Agent :=
  { id := "A".toList, author := "u".toList,
    actions := [encodeActionRef "example.com".toList "a1".toList],
    tools := [encodeToolRef "f".toList "sub.example.com".toList] }

/-- C8 counterexample: unbinding extracts the domain example.com, and
the sole tools entry has domain component sub.example.com, a different
domain, yet it is removed, because the handler filters on substring
containment of the extracted domain anywhere in the entry rather than on
equality with the domain component. -/
theorem c8_unbind_counterexample :
    (unbindScan "a1".toList c8Agent.actions).2 = "example.com".toList ∧
    toolRefDomain (encodeToolRef "f".toList "sub.example.com".toList)
      ≠ "example.com".toList ∧
    unbindAgent "a1".toList c8Agent
      = Except.ok
          { id := "A".toList, author := "u".toList, actions := [], tools := [] } := by
  refine ⟨by decide, by decide, rfl⟩

/-- C8 (amended): a successful unbind keeps exactly the tools entries
that are empty or do not contain the extracted domain as a substring;
containment anywhere in the entry, not equality of the domain component,
decides removal. -/
theorem c8_unbind_tools_amended (aid : Str) (agent agent2 : Agent)
    (h : unbindAgent aid agent = Except.ok agent2) :
    agent2.tools
        = agent.tools.filter
            (fun tool =>
              tool.isEmpty || !includesStr tool (unbindScan aid agent.actions).2) ∧
    ∀ t, t ∈ agent2.tools ↔
      t ∈ agent.tools ∧
        (t = [] ∨ includesStr t (unbindScan aid agent.actions).2 = false) := by
  unfold unbindAgent at h
  split at h
  next hd => simp at h
  next hd =>
    injection h with h2
    subst h2
    refine ⟨rfl, ?_⟩
    intro t
    simp [List.mem_filter, List.isEmpty_iff, Bool.or_eq_true, Bool.not_eq_true']

def c8WAgent : Agent :=
  { id := "B".toList, author := "u".toList,
    actions := [encodeActionRef "dom.com".toList "a2".toList],
    tools := [encodeToolRef "g".toList "dom.com".toList, "keep.me".toList] }

theorem c8_unbind_tools_amended_witness :
    ({ id := "B".toList, author := "u".toList, actions := ([] : List Str),
        tools := ["keep.me".toList] } : Agent).tools
      = c8WAgent.tools.filter
          (fun tool =>
            tool.isEmpty || !includesStr tool (unbindScan "a2".toList c8WAgent.actions).2) :=
  (c8_unbind_tools_amended "a2".toList c8WAgent
    { id := "B".toList, author := "u".toList, actions := [], tools := ["keep.me".toList] }
    (by rfl)).1

/-- C9: for a non-admin caller that authored none of the agents bearing
the target id, both the bind and the unbind route answer with the
not-found error (never a forbidden error), because the store lookup is
scoped to the author; an admin query drops the author filter entirely,
so an admin lookup finds any agent with the id regardless of author. -/
theorem c9_auth_scoping (dp : Str → Str) (u : Identity) (agent_id action_id : Str)
    (st : SysState) (hna : isAdmin u = false)
    (hauth : ∀ agent ∈ st.agents, agent.id = agent_id → agent.author ≠ u.id) :
    bindRoute dp u agent_id action_id st = Except.error Err.agentNotFound ∧
    unbindRoute u agent_id action_id st = Except.error Err.agentNotFound ∧
    ∀ v : Identity, isAdmin v = true →
      getAgent (mkAgentQuery v agent_id) st.agents
        = st.agents.find? (fun agent => agent.id == agent_id) := by
  have hq : mkAgentQuery u agent_id = { id := agent_id, author := some u.id } := by
    simp [mkAgentQuery, hna]
  have hget : getAgent (mkAgentQuery u agent_id) st.agents = none := by
    rw [getAgent, hq]
    apply List.find?_eq_none.mpr
    intro ag hag
    simp only [matchesAgentQuery, Bool.and_eq_true, beq_iff_eq]
    rintro ⟨h1, h2⟩
    exact hauth ag hag h1 h2
  refine ⟨?_, ?_, ?_⟩
  · simp only [bindRoute, hget]
  · simp only [unbindRoute, hget]
  · intro v hv
    have hqv : mkAgentQuery v agent_id = { id := agent_id, author := none } := by
      simp [mkAgentQuery, hv]
    have hpred : matchesAgentQuery { id := agent_id, author := none }
        = fun agent => agent.id == agent_id := by
      funext agent
      simp [matchesAgentQuery]
    rw [getAgent, hqv, hpred]

def c9Agent : Agent :=
  { id := "A".toList, author := "owner".toList, actions := [], tools := [] }

def c9State : SysState := { actions := [], agents := [c9Agent] }

theorem c9_auth_scoping_witness :
    bindRoute (fun s => s) { id := "mallory".toList, role := Role.user }
        "A".toList "a1".toList c9State
      = Except.error Err.agentNotFound :=
  (c9_auth_scoping (fun s => s) { id := "mallory".toList, role := Role.user }
    "A".toList "a1".toList c9State (by decide) (by decide)).1

theorem deleteActionStore_none (action_id : Str) (l : List Action)
    (h : ∀ a ∈ l, a.action_id ≠ action_id) :
    (deleteActionStore action_id l).1 = none := by
  induction l with
  | nil => rfl
  | cons a rest ih =>
    have ha : (a.action_id == action_id) = false := by
      simp [h a (List.mem_cons_self a rest)]
    simp only [deleteActionStore, ha, Bool.false_eq_true, if_false]
    exact ih (fun x hx => h x (List.mem_cons_of_mem a hx))

/-- C7: deleting a nonexistent action does not answer with the not-found
error the spec requires; the handler dereferences the null result of the
store delete, the thrown TypeError reaches the catch block, and the
response is the generic 500; no store record is mutated on this path. -/
theorem c7_delete_missing_action (dp : Str → Str) (action_id : Str) (st : SysState)
    (h : ∀ a ∈ st.actions, a.action_id ≠ action_id) :
    deleteActionRoute dp action_id st = Except.error Err.internalError := by
  simp only [deleteActionRoute, deleteActionStore_none action_id st.actions h]

theorem c7_delete_missing_action_witness :
    deleteActionRoute (fun s => s) "missing".toList
        { actions :=
            [{ action_id := "b2".toList, agent_id := "A".toList, user := "u".toList,
                metadata := [], functions := [] }],
          agents := [] }
      = Except.error Err.internalError :=
  c7_delete_missing_action (fun s => s) "missing".toList
    { actions :=
        [{ action_id := "b2".toList, agent_id := "A".toList, user := "u".toList,
            metadata := [], functions := [] }],
      agents := [] }
    (by decide)

/-- C3: for an agent matched by the update cascade, the rewritten agent
has exactly one actions entry containing the action id, namely the
reference encoded with the new domain; assuming the old domain is a real
domain that does not occur inside any freshly encoded tool reference, no
tools entry of the result contains the old domain, and one fresh tool
reference per updated function is present. -/
theorem c3_update_cascade (oldDomain domain aid : Str) (fns : List Str) (agent : Agent)
    (hbound : matchesActionQuery aid agent = true)
    (hod : oldDomain ≠ [])
    (hfresh : ∀ f ∈ fns, includesStr (encodeToolRef f domain) oldDomain = false) :
    (applyOp agent (Op.update oldDomain domain aid fns)).actions.filter
        (fun a => includesStr a aid) = [encodeActionRef domain aid] ∧
    (∀ t ∈ (applyOp agent (Op.update oldDomain domain aid fns)).tools,
        includesStr t oldDomain = false) ∧
    (∀ f ∈ fns, encodeToolRef f domain
        ∈ (applyOp agent (Op.update oldDomain domain aid fns)).tools) := by
  have happ : applyOp agent (Op.update oldDomain domain aid fns)
      = updateAgentRefs oldDomain domain aid fns agent := by
    simp [applyOp, hbound]
  rw [happ]
  unfold updateAgentRefs
  refine ⟨?_, ?_, ?_⟩
  · rw [List.filter_append]
    have h0 : (agent.actions.filter (fun a => !includesStr a aid)).filter
        (fun a => includesStr a aid) = [] := by
      rw [List.filter_filter]
      apply List.filter_eq_nil_iff.mpr
      intro a ha
      simp
    rw [h0, List.nil_append]
    simp [List.filter_cons, includesStr_encode_self]
  · intro t ht
    rcases List.mem_append.mp ht with h1 | h2
    · rcases List.mem_filter.mp h1 with ⟨hmem, hp⟩
      by_cases hemp : t = []
      · subst hemp
        cases ho : oldDomain with
        | nil => exact absurd ho hod
        | cons c r => rfl
      · have hemp2 : t.isEmpty = false := by
          simpa [List.isEmpty_iff] using hemp
        rw [hemp2, Bool.false_or] at hp
        simp at hp
        exact hp.1
    · rcases List.mem_map.mp h2 with ⟨f, hf, rfl⟩
      exact hfresh f hf
  · intro f hf
    exact List.mem_append.mpr (Or.inr (List.mem_map.mpr ⟨f, hf, rfl⟩))

def c3Agent : Agent :=
  { id := "A".toList, author := "u".toList,
    actions := [encodeActionRef "api.example.com".toList "a1".toList],
    tools := [encodeToolRef "lookup".toList "api.example.com".toList] }

theorem c3_update_cascade_witness :
    (applyOp c3Agent
        (Op.update "api.example.com".toList "api2.example.com".toList "a1".toList
          ["lookup".toList])).actions.filter
        (fun a => includesStr a "a1".toList)
      = [encodeActionRef "api2.example.com".toList "a1".toList] :=
  (c3_update_cascade "api.example.com".toList "api2.example.com".toList "a1".toList
    ["lookup".toList] c3Agent (by decide) (by decide) (by decide)).1

theorem applyOp_preserves_invA (aid : Str) (agent : Agent) (op : Op)
    (hs : opSafe aid op = true) (h : countRefs aid agent.actions ≤ 1) :
    countRefs aid (applyOp agent op).actions ≤ 1 := by
  cases op with
  | bind d a fns =>
    simp only [opSafe, Bool.and_eq_true] at hs
    obtain ⟨hne0, hor⟩ := hs
    have haid : aid ≠ [] := by
      intro hx
      subst hx
      simp at hne0
    cases hc : bindCond a agent with
    | false =>
      simp only [applyOp, bindAgent_eq_noop d a fns agent hc]
      exact h
    | true =>
      simp only [applyOp, bindAgent_eq_write d a fns agent hc]
      show countRefs aid (agent.actions ++ [encodeActionRef d a]) ≤ 1
      rw [countRefs_append, countRefs_singleton]
      cases hoa : (a == aid) with
      | true =>
        have haeq : a = aid := by simpa using hoa
        subst haeq
        have hfind := bindCond_find_none_of_true a agent haid hc
        have h0 : countRefs a agent.actions = 0 := by
          unfold countRefs
          rw [List.filter_eq_nil_iff.mpr
            (fun x hx => by simp [List.find?_eq_none.mp hfind x hx])]
          rfl
        rw [h0]
        split <;> simp
      | false =>
        have hni : includesStr (encodeActionRef d a) aid = false := by
          rw [hoa] at hor
          simpa using hor
        rw [hni]
        simpa using h
  | unbind a =>
    cases hub : unbindAgent a agent with
    | error e =>
      simp only [applyOp, hub]
      exact h
    | ok agent2 =>
      simp only [applyOp, hub]
      have ha2 : agent2.actions = agent.actions.filter (fun x => !includesStr x a) := by
        unfold unbindAgent at hub
        split at hub
        next hd => simp at hub
        next hd =>
          injection hub with h2
          subst h2
          rfl
      show countRefs aid agent2.actions ≤ 1
      rw [ha2]
      exact le_trans (countRefs_filter_le aid _ agent.actions) h
  | update od d a fns =>
    simp only [opSafe] at hs
    cases hm : matchesActionQuery a agent with
    | false =>
      simp only [applyOp, hm, Bool.false_eq_true, if_false]
      exact h
    | true =>
      simp only [applyOp, hm, if_true]
      unfold updateAgentRefs
      show countRefs aid
          (agent.actions.filter (fun x => !includesStr x a) ++ [encodeActionRef d a]) ≤ 1
      rw [countRefs_append, countRefs_singleton]
      cases hoa : (a == aid) with
      | true =>
        have haeq : a = aid := by simpa using hoa
        subst haeq
        rw [countRefs_filter_not_id]
        split <;> simp
      | false =>
        have hni : includesStr (encodeActionRef d a) aid = false := by
          rw [hoa] at hs
          simpa using hs
        rw [hni]
        have hle := countRefs_filter_le aid (fun x => !includesStr x a) agent.actions
        have hz : (if (false : Bool) = true then 1 else 0) = 0 := by simp
        rw [hz]
        omega
  | delete d a =>
    cases hm : matchesActionQuery a agent with
    | false =>
      simp only [applyOp, hm, Bool.false_eq_true, if_false]
      exact h
    | true =>
      simp only [applyOp, hm, if_true]
      unfold deleteAgentRefs
      show countRefs aid (agent.actions.filter (fun x => !includesStr x a)) ≤ 1
      exact le_trans (countRefs_filter_le aid _ agent.actions) h

/-- C1: relative to a tracked action id, any sequence of well-formed
bind, unbind, update and delete operations preserves the invariant that
at most one actions entry of the agent contains the id. -/
theorem c1_invariantA_preserved (aid : Str) (ops : List Op) (agent : Agent)
    (hsafe : ∀ op ∈ ops, opSafe aid op = true)
    (h : countRefs aid agent.actions ≤ 1) :
    countRefs aid (applyOps agent ops).actions ≤ 1 := by
  induction ops generalizing agent with
  | nil => exact h
  | cons op rest ih =>
    simp only [applyOps]
    exact ih (applyOp agent op)
      (fun o ho => hsafe o (List.mem_cons_of_mem op ho))
      (applyOp_preserves_invA aid agent op (hsafe op (List.mem_cons_self op rest)) h)

theorem c1_invariantA_preserved_witness :
    countRefs "a1".toList
        (applyOps { id := "A".toList, author := "u".toList, actions := [], tools := [] }
          [Op.bind "d1".toList "a1".toList ["f".toList],
            Op.bind "d1".toList "a1".toList ["f".toList],
            Op.update "d1".toList "d2".toList "a1".toList ["f".toList],
            Op.unbind "a1".toList,
            Op.delete "d2".toList "a1".toList]).actions ≤ 1 :=
  c1_invariantA_preserved "a1".toList
    [Op.bind "d1".toList "a1".toList ["f".toList],
      Op.bind "d1".toList "a1".toList ["f".toList],
      Op.update "d1".toList "d2".toList "a1".toList ["f".toList],
      Op.unbind "a1".toList,
      Op.delete "d2".toList "a1".toList]
    { id := "A".toList, author := "u".toList, actions := [], tools := [] }
    (by decide) (by decide)


end ActionsRouter
